import Mathlib

/-
  Shallow embedding of the IrregularExpression fluent regex builder
  (src/mod.ts).  The builder holds a pattern string, a set of single
  character flags (modelled as an insertion-ordered duplicate-free list,
  matching the JavaScript Set semantics used by the source), an optional
  result cap, and the ordered list of failure-event messages dispatched
  through emitError.  Group-taking methods in the source invoke a callback
  on a fresh child builder and read back only the child's accumulated
  pattern string, so they are embedded as functions of that string.
  JavaScript numeric arguments are modelled as rationals, with
  Number.isInteger q rendered as q.den = 1.
-/

namespace IrregularExpression

/-- Builder state: accumulated pattern, flag characters in insertion order,
optional result cap, and the sequence of failure events emitted so far. -/
structure Builder where
  pattern : String
  flags : List Char
  maxRun : Option ℚ
  errors : List String
deriving DecidableEq

/-- The private constructor: empty pattern, global flag preset, no cap. -/
def match_ : Builder := ⟨"", ['g'], none, []⟩

/-- emitError dispatches a failure event carrying the message. -/
def emitError (b : Builder) (msg : String) : Builder :=
  { b with errors := b.errors ++ [msg] }

/-- JavaScript Set.add: append the element unless already present. -/
def setAdd (l : List Char) (c : Char) : List Char :=
  if c ∈ l then l else l ++ [c]

/-- Append a fragment to the accumulated pattern. -/
def appendFrag (b : Builder) (s : String) : Builder :=
  { b with pattern := b.pattern ++ s }

def ignoreCase (b : Builder) : Builder := { b with flags := setAdd b.flags 'i' }

def multiline (b : Builder) : Builder := { b with flags := setAdd b.flags 'm' }

def dotAll (b : Builder) : Builder := { b with flags := setAdd b.flags 's' }

def unicode (b : Builder) : Builder := { b with flags := setAdd b.flags 'u' }

/-- runTimes(count): requires a positive integer, else emits an error. -/
def runTimes (b : Builder) (count : ℚ) : Builder :=
  if count ≤ 0 ∨ count.den ≠ 1 then
    emitError b "runTimes expects a positive integer."
  else { b with maxRun := some count }

def startOfLine (b : Builder) : Builder := appendFrag b "^"

def endOfLine (b : Builder) : Builder := appendFrag b "$"

def anySingleCharacter (b : Builder) : Builder := appendFrag b "."

def zeroOrMore (b : Builder) : Builder := appendFrag b "*"

def oneOrMore (b : Builder) : Builder := appendFrag b "+"

def zeroOrOne (b : Builder) : Builder := appendFrag b "?"

/-- The metacharacters escaped by escapeRegExp / escapeSpecialChars. -/
def metachars : List Char :=
  ['.', '*', '+', '?', '^', '$', '\x7b', '\x7d', '(', ')', '|', '[', ']', '\\']

/-- Per-character action of the global replace in escapeRegExp. -/
def escChar (c : Char) : List Char :=
  if c ∈ metachars then ['\\', c] else [c]

/-- escapeRegExp: prefix every metacharacter occurrence with a backslash. -/
def escapeRegExp (s : String) : String := String.mk (s.toList.flatMap escChar)

/-- escapeSpecialChars: textually identical helper used by anyCharacterExcept. -/
def escapeSpecialChars (s : String) : String := escapeRegExp s

def literal (b : Builder) (text : String) : Builder :=
  appendFrag b (escapeRegExp text)

def digit (b : Builder) : Builder := appendFrag b "\\d"

def nonDigit (b : Builder) : Builder := appendFrag b "\\D"

def wordCharacter (b : Builder) : Builder := appendFrag b "\\w"

def nonWordCharacter (b : Builder) : Builder := appendFrag b "\\W"

def whitespace (b : Builder) : Builder := appendFrag b "\\s"

def nonWhitespace (b : Builder) : Builder := appendFrag b "\\S"

def wordBoundary (b : Builder) : Builder := appendFrag b "\\b"

def range (b : Builder) (start stop : String) : Builder :=
  appendFrag b ("[" ++ start ++ "-" ++ stop ++ "]")

def notInRange (b : Builder) (start stop : String) : Builder :=
  appendFrag b ("[^" ++ start ++ "-" ++ stop ++ "]")

def anyOf (b : Builder) (chars : String) : Builder :=
  appendFrag b ("[" ++ escapeRegExp chars ++ "]")

def noneOf (b : Builder) (chars : String) : Builder :=
  appendFrag b ("[^" ++ escapeRegExp chars ++ "]")

def anyCharacterExcept (b : Builder) (chars : String) : Builder :=
  appendFrag b ("[^" ++ escapeSpecialChars chars ++ "]")

/-- exactly(n): validates a non-negative integer, then appends the
bounded-repetition fragment built from n. -/
def exactly (b : Builder) (n : ℚ) : Builder :=
  if ¬ n.den = 1 ∨ n < 0 then
    emitError b "exactly expects a non-negative integer."
  else appendFrag b ("\x7b" ++ toString n.num ++ "\x7d")

/-- atLeast(n): validates a non-negative integer, then appends the
lower-bounded repetition fragment built from n. -/
def atLeast (b : Builder) (n : ℚ) : Builder :=
  if ¬ n.den = 1 ∨ n < 0 then
    emitError b "atLeast expects a non-negative integer."
  else appendFrag b ("\x7b" ++ toString n.num ++ ",\x7d")

/-- between(n, m): validates two non-negative integers with m at least n,
then appends the doubly-bounded repetition fragment built from n and m. -/
def between (b : Builder) (n m : ℚ) : Builder :=
  if ¬ n.den = 1 ∨ ¬ m.den = 1 ∨ n < 0 ∨ m < n then
    emitError b "between expects two non-negative integers where m >= n."
  else appendFrag b ("\x7b" ++ toString n.num ++ "," ++ toString m.num ++ "\x7d")

/-- capture: the callback's net effect on its fresh child builder is the
child's accumulated pattern, passed here as the child argument. -/
def capture (b : Builder) (child : String) : Builder :=
  appendFrag b ("(" ++ child ++ ")")

/-- namedCapture appends the named-group wrapping of the child fragment.
The source performs no validation of the name. -/
def namedCapture (b : Builder) (name child : String) : Builder :=
  appendFrag b ("(?<" ++ name ++ ">" ++ child ++ ")")

def nonCapturingGroup (b : Builder) (child : String) : Builder :=
  appendFrag b ("(?:" ++ child ++ ")")

def positiveLookahead (b : Builder) (child : String) : Builder :=
  appendFrag b ("(?=" ++ child ++ ")")

def negativeLookahead (b : Builder) (child : String) : Builder :=
  appendFrag b ("(?!" ++ child ++ ")")

def positiveLookbehind (b : Builder) (child : String) : Builder :=
  appendFrag b ("(?<=" ++ child ++ ")")

def negativeLookbehind (b : Builder) (child : String) : Builder :=
  appendFrag b ("(?<!" ++ child ++ ")")

/-- or(callback?): appends the separator, then the alternative fragment
when a callback was supplied. -/
def orElse (b : Builder) (alt : Option String) : Builder :=
  match alt with
  | none => appendFrag b "|"
  | some s => appendFrag b ("|" ++ s)

/-- group opens a parenthesis, runs the callback on the same builder, and
closes it; embedded as the open-parenthesis half. -/
def groupOpen (b : Builder) : Builder := appendFrag b "("

/-- Closing half of group. -/
def groupClose (b : Builder) : Builder := appendFrag b ")"

def backreference (b : Builder) (n : ℚ) : Builder :=
  if ¬ n.den = 1 ∨ n < 1 then
    emitError b
      "backreference expects a positive integer representing the group number."
  else appendFrag b ("\\" ++ toString n.num)

/-- The identifier shape accepted by namedBackreference's validation regex:
a letter or underscore followed by letters, digits, or underscores. -/
def isValidGroupName (s : String) : Bool :=
  match s.toList with
  | [] => false
  | c :: cs => (c.isAlpha || c = '_') && cs.all (fun d => d.isAlphanum || d = '_')

def namedBackreference (b : Builder) (name : String) : Builder :=
  if ¬ isValidGroupName name then
    emitError b
      "namedBackreference expects a valid group name consisting of letters, numbers, and underscores, not starting with a number."
  else appendFrag b ("\\k<" ++ name ++ ">")

def getPattern (b : Builder) : String := b.pattern

/-- build(): the engine (modelled by compile, returning an error message on
rejection) receives the pattern and the insertion-ordered flag string; on
rejection an error event fires and the match-nothing sentinel source with
an empty flag string is returned instead. -/
def build (compile : String → Option String) (b : Builder) :
    Builder × (String × String) :=
  match compile b.pattern with
  | none => (b, (b.pattern, String.mk b.flags))
  | some msg =>
      (emitError b ("Invalid regex pattern: " ++ msg), ("(?!x)x", ""))

/-- Running a compiled source/flags pair on an input through the engine's
boolean test, the engine being modelled by the matcher argument. -/
def regexTest (matcher : String → String → String → Bool)
    (r : String × String) (input : String) : Bool :=
  matcher r.1 r.2 input

/-- test(input): builds, then delegates the boolean containment test. -/
def testM (compile : String → Option String)
    (matcher : String → String → String → Bool)
    (b : Builder) (input : String) : Builder × Bool :=
  let p := build compile b
  (p.1, regexTest matcher p.2 input)

/-- The ECMAScript flags getter of a compiled expression: the active flag
characters rendered in the engine's fixed canonical order.  The textual
representation of a compiled expression renders its flags through this
getter. -/
def jsFlagsGetter (flags : List Char) : String :=
  String.mk (['d', 'g', 'i', 'm', 's', 'u', 'v', 'y'].filter
    (fun c => decide (c ∈ flags)))

/-- Whether execute's loop breaks after collecting this many matches:
the cap is set and the count has reached it. -/
def stopAfter (maxRun : Option ℚ) (count : ℕ) : Bool :=
  match maxRun with
  | none => false
  | some k => decide (k ≤ (count : ℚ))

/-- execute's search loop.  step models the engine's global-flag exec: from
the current lastIndex it returns the matched text together with the new
lastIndex (the end position of the match), or none when no further match
exists.  Each found match is pushed; the loop breaks once the incremented
count reaches the configured cap.  Fuel bounds the number of iterations we
are willing to model; a run that exhausts its fuel returns none. -/
def executeFuel (step : ℕ → Option (List Char × ℕ)) (maxRun : Option ℚ) :
    ℕ → ℕ → ℕ → Option (List (List Char))
  | 0, _, _ => none
  | fuel + 1, li, count =>
    match step li with
    | none => some []
    | some (m, li') =>
      if stopAfter maxRun (count + 1) then some [m]
      else (executeFuel step maxRun fuel li' (count + 1)).map (m :: ·)

/-- execute(input): run the search loop from lastIndex 0 with the builder's
configured cap. -/
def executeM (step : ℕ → Option (List Char × ℕ)) (b : Builder) (fuel : ℕ) :
    Option (List (List Char)) :=
  executeFuel step b.maxRun fuel 0 0

/-- Engine exec for the compiled pattern a-star with the global flag: the
pattern matches (possibly emptily) at every position not past the end, so
the first match starts at lastIndex itself; exec then sets lastIndex to the
end of the match. -/
def jsExecAstar (s : List Char) (li : ℕ) : Option (List Char × ℕ) :=
  if li ≤ s.length then
    let run := (s.drop li).takeWhile (fun c => c = 'a')
    some (run, li + run.length)
  else none

/-- Engine exec for the compiled digit-one-or-more pattern with the global
flag: find the first position at or after lastIndex holding a digit, match
the maximal digit run there, and set lastIndex to its end. -/
def jsExecDigits (s : List Char) (li : ℕ) : Option (List Char × ℕ) :=
  match (List.range (s.length + 1)).find?
      (fun j => decide (li ≤ j) && (s.getD j ' ').isDigit && decide (j < s.length)) with
  | none => none
  | some j =>
    let run := (s.drop j).takeWhile Char.isDigit
    some (run, j + run.length)

/-- Whether the sentinel source matches at position p of the input: the
negative lookahead requires that no x starts at p, after which an x must be
consumed at p. -/
def sentinelMatchAt (s : List Char) (p : ℕ) : Bool :=
  (! decide (s.getD p ' ' = 'x' ∧ p < s.length))
    && decide (s.getD p ' ' = 'x' ∧ p < s.length)

/-- Whether the sentinel source matches anywhere in the input. -/
def sentinelTest (input : String) : Bool :=
  (List.range (input.toList.length + 1)).any (sentinelMatchAt input.toList)

/-- The four flag-adding methods. -/
inductive FlagOp where
  | iFlag | mFlag | sFlag | uFlag
deriving DecidableEq

def applyFlagOp (b : Builder) : FlagOp → Builder
  | .iFlag => ignoreCase b
  | .mFlag => multiline b
  | .sFlag => dotAll b
  | .uFlag => unicode b

def applyFlagOps (ops : List FlagOp) (b : Builder) : Builder :=
  ops.foldl applyFlagOp b

/-- Enumeration of the public mutating operations of the builder, for
stating invariants over arbitrary call sequences.  Group-taking methods
appear with the child's accumulated pattern (the only data the parent
reads), and the group method, which reuses the same builder inside its
callback, appears as its opening and closing halves so that any sequence
of calls made inside its callback is itself a sequence of operations. -/
inductive Op where
  | opIgnoreCase | opMultiline | opDotAll | opUnicode
  | opRunTimes (count : ℚ)
  | opStartOfLine | opEndOfLine | opAnySingleCharacter
  | opZeroOrMore | opOneOrMore | opZeroOrOne
  | opLiteral (text : String)
  | opDigit | opNonDigit | opWordCharacter | opNonWordCharacter
  | opWhitespace | opNonWhitespace | opWordBoundary
  | opRange (start stop : String) | opNotInRange (start stop : String)
  | opAnyOf (chars : String) | opNoneOf (chars : String)
  | opAnyCharacterExcept (chars : String)
  | opExactly (n : ℚ) | opAtLeast (n : ℚ) | opBetween (n m : ℚ)
  | opCapture (child : String) | opNamedCapture (name child : String)
  | opNonCapturingGroup (child : String)
  | opPositiveLookahead (child : String) | opNegativeLookahead (child : String)
  | opPositiveLookbehind (child : String) | opNegativeLookbehind (child : String)
  | opOr (alt : Option String)
  | opGroupOpen | opGroupClose
  | opBackreference (n : ℚ) | opNamedBackreference (name : String)

def applyOp (b : Builder) : Op → Builder
  | .opIgnoreCase => ignoreCase b
  | .opMultiline => multiline b
  | .opDotAll => dotAll b
  | .opUnicode => unicode b
  | .opRunTimes count => runTimes b count
  | .opStartOfLine => startOfLine b
  | .opEndOfLine => endOfLine b
  | .opAnySingleCharacter => anySingleCharacter b
  | .opZeroOrMore => zeroOrMore b
  | .opOneOrMore => oneOrMore b
  | .opZeroOrOne => zeroOrOne b
  | .opLiteral text => literal b text
  | .opDigit => digit b
  | .opNonDigit => nonDigit b
  | .opWordCharacter => wordCharacter b
  | .opNonWordCharacter => nonWordCharacter b
  | .opWhitespace => whitespace b
  | .opNonWhitespace => nonWhitespace b
  | .opWordBoundary => wordBoundary b
  | .opRange start stop => range b start stop
  | .opNotInRange start stop => notInRange b start stop
  | .opAnyOf chars => anyOf b chars
  | .opNoneOf chars => noneOf b chars
  | .opAnyCharacterExcept chars => anyCharacterExcept b chars
  | .opExactly n => exactly b n
  | .opAtLeast n => atLeast b n
  | .opBetween n m => between b n m
  | .opCapture child => capture b child
  | .opNamedCapture name child => namedCapture b name child
  | .opNonCapturingGroup child => nonCapturingGroup b child
  | .opPositiveLookahead child => positiveLookahead b child
  | .opNegativeLookahead child => negativeLookahead b child
  | .opPositiveLookbehind child => positiveLookbehind b child
  | .opNegativeLookbehind child => negativeLookbehind b child
  | .opOr alt => orElse b alt
  | .opGroupOpen => groupOpen b
  | .opGroupClose => groupClose b
  | .opBackreference n => backreference b n
  | .opNamedBackreference name => namedBackreference b name

def applyOps (ops : List Op) (b : Builder) : Builder := ops.foldl applyOp b

/-- One step of combine's forEach body. -/
def combineStep (acc e : Builder) : Builder :=
  { acc with pattern := acc.pattern ++ e.pattern,
             flags := e.flags.foldl setAdd acc.flags }

/-- combine(...expressions): fold the arguments over a fresh builder,
concatenating patterns and adding every flag of every argument. -/
def combine (bs : List Builder) : Builder := bs.foldl combineStep match_

lemma mem_setAdd {l : List Char} {c d : Char} :
    c ∈ setAdd l d ↔ c ∈ l ∨ c = d := by
  unfold setAdd
  split
  case isTrue h =>
    constructor
    · exact Or.inl
    · rintro (hc | rfl)
      · exact hc
      · exact h
  case isFalse h => simp

lemma nodup_setAdd {l : List Char} {d : Char} (h : l.Nodup) :
    (setAdd l d).Nodup := by
  unfold setAdd
  split
  case isTrue hd => exact h
  case isFalse hd => simpa [List.nodup_append, h] using hd

lemma mem_foldl_setAdd (l : List Char) :
    ∀ (init : List Char) (c : Char),
      c ∈ List.foldl setAdd init l ↔ c ∈ init ∨ c ∈ l := by
  induction l with
  | nil => simp
  | cons a t ih =>
    intro init c
    rw [List.foldl_cons, ih, mem_setAdd]
    simp
    tauto

lemma flags_appendFrag (b : Builder) (s : String) :
    (appendFrag b s).flags = b.flags := rfl

lemma flags_emitError (b : Builder) (msg : String) :
    (emitError b msg).flags = b.flags := rfl

lemma pattern_emitError (b : Builder) (msg : String) :
    (emitError b msg).pattern = b.pattern := rfl

lemma errors_emitError (b : Builder) (msg : String) :
    (emitError b msg).errors = b.errors ++ [msg] := rfl

lemma foldl_combineStep_maxRun (bs : List Builder) :
    ∀ acc : Builder, (List.foldl combineStep acc bs).maxRun = acc.maxRun := by
  induction bs with
  | nil => intro acc; rfl
  | cons e t ih => intro acc; rw [List.foldl_cons, ih]; rfl

lemma string_append_assoc (a b c : String) : a ++ b ++ c = a ++ (b ++ c) := by
  show String.mk ((a.data ++ b.data) ++ c.data) = String.mk (a.data ++ (b.data ++ c.data))
  rw [List.append_assoc]

lemma string_join_cons (p : String) (ps : List String) :
    String.join (p :: ps) = p ++ String.join ps := by
  rw [String.join_eq, String.join_eq]
  rfl

lemma foldl_combineStep_pattern (bs : List Builder) :
    ∀ acc : Builder, (List.foldl combineStep acc bs).pattern
      = acc.pattern ++ String.join (bs.map Builder.pattern) := by
  induction bs with
  | nil =>
    intro acc
    show acc.pattern = acc.pattern ++ String.join []
    rw [String.join_eq]
    show String.mk acc.pattern.data = String.mk (acc.pattern.data ++ _)
    rw [List.map_nil, List.flatten_nil, List.append_nil]
  | cons e t ih =>
    intro acc
    rw [List.foldl_cons, ih, List.map_cons, string_join_cons,
      ← string_append_assoc]
    rfl

lemma mem_flags_foldl_combineStep (bs : List Builder) :
    ∀ (acc : Builder) (c : Char),
      c ∈ (List.foldl combineStep acc bs).flags
        ↔ c ∈ acc.flags ∨ ∃ b ∈ bs, c ∈ b.flags := by
  induction bs with
  | nil => intro acc c; simp
  | cons e t ih =>
    intro acc c
    rw [List.foldl_cons, ih]
    show c ∈ (List.foldl setAdd acc.flags e.flags) ∨ _ ↔ _
    rw [mem_foldl_setAdd]
    simp
    tauto

/-- Claim C1 (counterexample): for the invalid group name beginning with a
digit, namedCapture appends the named group anyway and fires no failure
event, so the claimed validate-and-reject behavior does not hold. -/
theorem namedCapture_invalid_name_cex :
    isValidGroupName "1x" = false ∧
    (namedCapture match_ "1x" "a").pattern = "(?<1x>a)" ∧
    (namedCapture match_ "1x" "a").errors = [] ∧
    ¬ ((namedCapture match_ "1x" "a").errors ≠ [] ∧
       (namedCapture match_ "1x" "a").pattern = match_.pattern) := by
  refine ⟨by decide, by decide, rfl, ?_⟩
  rintro ⟨h, _⟩
  exact h rfl

/-- Claim C1 (amended): namedCapture performs no validation of the group
name: for every name, valid or not, it appends the named-group wrapping of
the child fragment and leaves flags, cap, and the event log untouched. -/
theorem namedCapture_appends_without_validation (b : Builder)
    (name child : String) :
    (namedCapture b name child).pattern
        = b.pattern ++ ("(?<" ++ name ++ ">" ++ child ++ ")") ∧
    (namedCapture b name child).errors = b.errors ∧
    (namedCapture b name child).flags = b.flags ∧
    (namedCapture b name child).maxRun = b.maxRun :=
  ⟨rfl, rfl, rfl, rfl⟩

/-- Claim C7 (counterexample): combine of the empty list yields a flag set
holding the global flag, which is not in the union of the (zero) argument
flag sets, so the combined flag set is not the plain union. -/
theorem combine_empty_union_cex :
    ¬ (∀ f : Char, f ∈ (combine ([] : List Builder)).flags
        ↔ ∃ b ∈ ([] : List Builder), f ∈ b.flags) := by
  intro h
  have := (h 'g').mp (by simp [combine, match_])
  simp at this

/-- Claim C7 (amended): combine concatenates the arguments' patterns in
order with no separator, and its flag set is the union of the arguments'
flag sets together with the default global flag (hence the plain union
whenever at least one argument is given, every builder carrying g). -/
theorem combine_concatenates_and_unions_with_g (bs : List Builder) :
    (combine bs).pattern = String.join (bs.map Builder.pattern) ∧
    ∀ f : Char, f ∈ (combine bs).flags
      ↔ f = 'g' ∨ ∃ b ∈ bs, f ∈ b.flags := by
  constructor
  · rw [combine, foldl_combineStep_pattern]
    rfl
  · intro f
    rw [combine, mem_flags_foldl_combineStep]
    show f ∈ ['g'] ∨ _ ↔ _
    simp

/-- Claim C8: literal appends its argument with every metacharacter
occurrence prefixed by a backslash and all other characters unchanged,
touching nothing else of the builder state; the escaping function acts
characterwise and distributes over concatenation. -/
theorem literal_escapes_metacharacters (b : Builder) (s : String) :
    (literal b s).pattern = b.pattern ++ escapeRegExp s ∧
    (literal b s).flags = b.flags ∧
    (literal b s).errors = b.errors ∧
    (literal b s).maxRun = b.maxRun ∧
    (∀ c : Char, escapeRegExp (String.mk [c])
        = if c ∈ metachars then String.mk ['\\', c] else String.mk [c]) ∧
    (∀ t u : String, escapeRegExp (t ++ u) = escapeRegExp t ++ escapeRegExp u) := by
  refine ⟨rfl, rfl, rfl, rfl, ?_, ?_⟩
  · intro c
    by_cases h : c ∈ metachars <;>
      simp [escapeRegExp, escChar, h, String.toList]
  · intro t u
    show String.mk ((t.data ++ u.data).flatMap escChar) = _
    rw [List.flatMap_append]
    rfl

/-- Claim C10: the builder returned by combine always has its result cap
at the initial unset value, whatever caps its arguments carried. -/
theorem combine_result_cap_unset (bs : List Builder) :
    (combine bs).maxRun = none := by
  rw [combine, foldl_combineStep_maxRun]
  rfl

/-- Claim C4: for integer arguments meeting the preconditions the three
bounded quantifiers append exactly the repetition fragment built from the
decimal renderings of their arguments; for any violating rational argument
the pattern is untouched and the method's specific failure message is
emitted; emitError itself never changes the pattern. -/
theorem quantifier_fragments_and_validation :
    (∀ (b : Builder) (n : ℤ), 0 ≤ n →
      exactly b (n : ℚ) = appendFrag b ("\x7b" ++ toString n ++ "\x7d")) ∧
    (∀ (b : Builder) (n : ℤ), 0 ≤ n →
      atLeast b (n : ℚ) = appendFrag b ("\x7b" ++ toString n ++ ",\x7d")) ∧
    (∀ (b : Builder) (n m : ℤ), 0 ≤ n → n ≤ m →
      between b (n : ℚ) (m : ℚ)
        = appendFrag b ("\x7b" ++ toString n ++ "," ++ toString m ++ "\x7d")) ∧
    (∀ (b : Builder) (q : ℚ), ¬ q.den = 1 ∨ q < 0 →
      exactly b q = emitError b "exactly expects a non-negative integer.") ∧
    (∀ (b : Builder) (q : ℚ), ¬ q.den = 1 ∨ q < 0 →
      atLeast b q = emitError b "atLeast expects a non-negative integer.") ∧
    (∀ (b : Builder) (q r : ℚ), ¬ q.den = 1 ∨ ¬ r.den = 1 ∨ q < 0 ∨ r < q →
      between b q r
        = emitError b "between expects two non-negative integers where m >= n.") ∧
    (∀ (b : Builder) (msg : String),
      (emitError b msg).pattern = b.pattern ∧
      (emitError b msg).errors = b.errors ++ [msg]) := by
  refine ⟨?_, ?_, ?_, ?_, ?_, ?_, fun b msg => ⟨rfl, rfl⟩⟩
  · intro b n hn
    rw [exactly, if_neg, Rat.num_intCast]
    push_neg
    exact ⟨Rat.den_intCast n, by exact_mod_cast hn⟩
  · intro b n hn
    rw [atLeast, if_neg, Rat.num_intCast]
    push_neg
    exact ⟨Rat.den_intCast n, by exact_mod_cast hn⟩
  · intro b n m hn hm
    rw [between, if_neg, Rat.num_intCast, Rat.num_intCast]
    push_neg
    refine ⟨Rat.den_intCast n, Rat.den_intCast m, by exact_mod_cast hn,
      by exact_mod_cast hm⟩
  · intro b q hq
    exact if_pos hq
  · intro b q hq
    exact if_pos hq
  · intro b q r hq
    exact if_pos (by tauto)

/-- Claim C4 (witness): the quantifier contract instantiated at concrete
arguments, valid and invalid. -/
theorem quantifier_fragments_and_validation_witness :
    ((0 : ℤ) ≤ 3 ∧
      exactly match_ ((3 : ℤ) : ℚ)
        = appendFrag match_ ("\x7b" ++ toString (3 : ℤ) ++ "\x7d")) ∧
    ((0 : ℤ) ≤ 2 ∧ (2 : ℤ) ≤ 4 ∧
      between match_ ((2 : ℤ) : ℚ) ((4 : ℤ) : ℚ)
        = appendFrag match_
            ("\x7b" ++ toString (2 : ℤ) ++ "," ++ toString (4 : ℤ) ++ "\x7d")) ∧
    ((¬ (-1 : ℚ).den = 1 ∨ (-1 : ℚ) < 0) ∧
      exactly match_ (-1 : ℚ)
        = emitError match_ "exactly expects a non-negative integer.") := by
  have h := quantifier_fragments_and_validation
  refine ⟨⟨by decide, h.1 match_ 3 (by decide)⟩,
    ⟨by decide, by decide, h.2.2.1 match_ 2 4 (by decide) (by decide)⟩,
    ⟨Or.inr (by norm_num), h.2.2.2.1 match_ (-1 : ℚ) (Or.inr (by norm_num))⟩⟩

lemma sentinelTest_eq_false (input : String) : sentinelTest input = false := by
  rw [sentinelTest, List.any_eq_false]
  intro p _
  rw [sentinelMatchAt]
  cases h : decide (input.toList.getD p ' ' = 'x' ∧ p < input.toList.length) <;>
    simp [h]

/-- Claim C5: whenever the engine rejects the accumulated pattern, build
emits the failure event carrying the engine's message and returns the
sentinel source with an empty flag string; the sentinel source matches no
input, and test on such a builder therefore returns false for every input
on any engine whose verdict on the sentinel agrees with its regex
semantics. -/
theorem build_rejected_yields_sentinel (compile : String → Option String)
    (matcher : String → String → String → Bool) (b : Builder) (msg : String)
    (hc : compile b.pattern = some msg) :
    (build compile b).2 = ("(?!x)x", "") ∧
    (build compile b).1.errors
        = b.errors ++ ["Invalid regex pattern: " ++ msg] ∧
    (∀ input, sentinelTest input = false) ∧
    (∀ input, matcher "(?!x)x" "" input = sentinelTest input →
      (testM compile matcher b input).2 = false) := by
  have hb : build compile b
      = (emitError b ("Invalid regex pattern: " ++ msg), ("(?!x)x", "")) := by
    rw [build, hc]
  refine ⟨by rw [hb], by rw [hb]; rfl, sentinelTest_eq_false, ?_⟩
  intro input hm
  show regexTest matcher (build compile b).2 input = false
  rw [hb]
  exact hm.trans (sentinelTest_eq_false input)

/-- Claim C5 (witness): a concretely rejecting engine on the empty builder
produces the sentinel and a false test verdict. -/
theorem build_rejected_yields_sentinel_witness :
    (build (fun _ => some "bad") match_).2 = ("(?!x)x", "") ∧
    (testM (fun _ => some "bad") (fun _ _ _ => false) match_ "abc").2 = false := by
  have h := build_rejected_yields_sentinel (fun _ => some "bad")
    (fun _ _ _ => false) match_ "bad" rfl
  exact ⟨h.1, h.2.2.2 "abc" (h.2.2.1 "abc").symm⟩

lemma jsExecAstar_b_zero : jsExecAstar "b".toList 0 = some ([], 0) := by decide

/-- Claim C3: the search loop does not advance past a zero-width match.
The builder for the a-star pattern with no cap, run on the input b, finds
the empty match at position zero, and exec with the global flag sets
lastIndex to the match end — position zero again — so the loop re-finds
the same empty match forever: no amount of fuel makes it return. -/
theorem execute_zero_width_never_terminates :
    (zeroOrMore (literal match_ "a")).pattern = "a*" ∧
    (zeroOrMore (literal match_ "a")).maxRun = none ∧
    ∀ fuel count,
      executeFuel (jsExecAstar "b".toList) none fuel 0 count = none := by
  refine ⟨by decide, rfl, ?_⟩
  intro fuel
  induction fuel with
  | zero => intro count; rfl
  | succ n ih =>
    intro count
    rw [executeFuel, jsExecAstar_b_zero]
    show (if stopAfter none (count + 1) then _ else _) = none
    rw [if_neg (by simp [stopAfter])]
    rw [ih (count + 1)]
    rfl

lemma jsExecDigits_advance {s : List Char} {li li' : ℕ} {m : List Char}
    (h : jsExecDigits s li = some (m, li')) : li < li' ∧ li' ≤ s.length := by
  rw [jsExecDigits] at h
  split at h
  · exact absurd h (by simp)
  case h_2 j hf =>
    have hp := List.find?_some hf
    simp only [Bool.and_eq_true, decide_eq_true_eq] at hp
    obtain ⟨⟨hlij, hdig⟩, hlt⟩ := hp
    have hdrop : s.drop j = s[j] :: s.drop (j + 1) := List.drop_eq_getElem_cons hlt
    have hgetd : s.getD j ' ' = s[j] := List.getD_eq_getElem s ' ' hlt
    rw [hgetd] at hdig
    have hrun : (s.drop j).takeWhile Char.isDigit
        = s[j] :: (s.drop (j + 1)).takeWhile Char.isDigit := by
      rw [hdrop, List.takeWhile_cons, if_pos hdig]
    have hlen1 : 1 ≤ ((s.drop j).takeWhile Char.isDigit).length := by
      rw [hrun]; simp
    have hlen2 : ((s.drop j).takeWhile Char.isDigit).length ≤ (s.drop j).length :=
      List.Sublist.length_le (List.takeWhile_sublist Char.isDigit)
    rw [List.length_drop] at hlen2
    simp only [Option.some.injEq, Prod.mk.injEq] at h
    obtain ⟨-, hli⟩ := h
    omega

lemma executeFuel_succ_none {step : ℕ → Option (List Char × ℕ)}
    {mr : Option ℚ} {fuel li count : ℕ} (h : step li = none) :
    executeFuel step mr (fuel + 1) li count = some [] := by
  rw [executeFuel, h]

lemma executeFuel_succ_some {step : ℕ → Option (List Char × ℕ)}
    {mr : Option ℚ} {fuel li count : ℕ} {m : List Char} {li' : ℕ}
    (h : step li = some (m, li')) :
    executeFuel step mr (fuel + 1) li count
      = if stopAfter mr (count + 1) = true then some [m]
        else (executeFuel step mr fuel li' (count + 1)).map (m :: ·) := by
  rw [executeFuel, h]

lemma executeFuel_cap_bound (step : ℕ → Option (List Char × ℕ)) (k : ℕ) :
    ∀ (fuel li count : ℕ) (r : List (List Char)), count < k →
      executeFuel step (some (k : ℚ)) fuel li count = some r →
      r.length ≤ k - count := by
  intro fuel
  induction fuel with
  | zero => intro li count r _ h; exact absurd h (by simp [executeFuel])
  | succ n ih =>
    intro li count r hck h
    cases hstep : step li with
    | none =>
      rw [executeFuel_succ_none hstep] at h
      simp only [Option.some.injEq] at h
      subst h
      simp
    | some p =>
      obtain ⟨m, li'⟩ := p
      rw [executeFuel_succ_some hstep] at h
      by_cases hstop : stopAfter (some (k : ℚ)) (count + 1) = true
      · rw [if_pos hstop] at h
        simp only [Option.some.injEq] at h
        subst h
        simp only [List.length_cons, List.length_nil]
        omega
      · rw [if_neg hstop] at h
        obtain ⟨r', hr', hmap⟩ := Option.map_eq_some'.mp h
        have hck' : count + 1 < k := by
          simp only [stopAfter, decide_eq_true_eq] at hstop
          have hkc : ¬ ((k : ℚ) ≤ ((count + 1 : ℕ) : ℚ)) := hstop
          rw [Nat.cast_le] at hkc
          omega
        have hlen := ih li' (count + 1) r' hck' hr'
        subst hmap
        simp only [List.length_cons]
        omega

lemma executeFuel_digits_total (s : List Char) :
    ∀ (fuel li count : ℕ), s.length + 2 ≤ fuel + li → li ≤ s.length + 1 →
      (executeFuel (jsExecDigits s) none fuel li count).isSome = true := by
  intro fuel
  induction fuel with
  | zero => intro li count h1 h2; omega
  | succ n ih =>
    intro li count h1 h2
    cases hstep : jsExecDigits s li with
    | none => rw [executeFuel_succ_none hstep]; rfl
    | some p =>
      obtain ⟨m, li'⟩ := p
      rw [executeFuel_succ_some hstep, if_neg (by simp [stopAfter]),
        Option.isSome_map']
      have hadv := jsExecDigits_advance hstep
      exact ih li' (count + 1) (by omega) (by omega)

/-- Claim C6: with the digit-one-or-more pattern and a cap of two, execute
on the given input returns exactly the matches 123 then 456 and stops
before 789; with the cap unset it collects all three in left-to-right
order; in general a run under cap k collects at most k minus the starting
count matches, and with no cap the loop finishes within input-length plus
two iterations for the digit engine on every input. -/
theorem execute_ordered_and_capped :
    (executeM (jsExecDigits ("123 abc 456 def 789".toList))
        (runTimes (oneOrMore (digit match_)) 2) 30
      = some ["123".toList, "456".toList]) ∧
    (executeM (jsExecDigits ("123 abc 456 def 789".toList))
        (oneOrMore (digit match_)) 30
      = some ["123".toList, "456".toList, "789".toList]) ∧
    (∀ (step : ℕ → Option (List Char × ℕ)) (k fuel li count : ℕ)
        (r : List (List Char)), count < k →
      executeFuel step (some (k : ℚ)) fuel li count = some r →
      r.length ≤ k - count) ∧
    (∀ (s : List Char) (count : ℕ),
      (executeFuel (jsExecDigits s) none (s.length + 2) 0 count).isSome = true) := by
  refine ⟨by decide, by decide, ?_, ?_⟩
  · intro step k fuel li count r hck h
    exact executeFuel_cap_bound step k fuel li count r hck h
  · intro s count
    exact executeFuel_digits_total s (s.length + 2) 0 count (by omega) (by omega)

/-- Claim C6 (witness): the general cap bound instantiated on the concrete
capped run of the example. -/
theorem execute_ordered_and_capped_witness :
    (0 : ℕ) < 2 ∧ (["123".toList, "456".toList].length ≤ 2 - 0) := by
  have h := execute_ordered_and_capped
  exact ⟨by decide,
    h.2.2.1 (jsExecDigits ("123 abc 456 def 789".toList)) 2 30 0 0
      ["123".toList, "456".toList] (by decide) (by decide)⟩

/-- The character each flag method adds. -/
def flagChar : FlagOp → Char
  | .iFlag => 'i'
  | .mFlag => 'm'
  | .sFlag => 's'
  | .uFlag => 'u'

lemma flags_applyFlagOp (b : Builder) (op : FlagOp) :
    (applyFlagOp b op).flags = setAdd b.flags (flagChar op) := by
  cases op <;> rfl

lemma mem_flags_applyFlagOps (ops : List FlagOp) :
    ∀ (b : Builder) (c : Char),
      c ∈ (applyFlagOps ops b).flags
        ↔ c ∈ b.flags ∨ ∃ op ∈ ops, c = flagChar op := by
  induction ops with
  | nil => intro b c; simp [applyFlagOps]
  | cons op t ih =>
    intro b c
    show c ∈ (applyFlagOps t (applyFlagOp b op)).flags ↔ _
    rw [ih, flags_applyFlagOp, mem_setAdd]
    simp only [List.mem_cons]
    constructor
    · rintro ((hc | rfl) | ⟨o, ho, rfl⟩)
      · exact Or.inl hc
      · exact Or.inr ⟨op, Or.inl rfl, rfl⟩
      · exact Or.inr ⟨o, Or.inr ho, rfl⟩
    · rintro (hc | ⟨o, (rfl | ho), rfl⟩)
      · exact Or.inl (Or.inl hc)
      · exact Or.inl (Or.inr rfl)
      · exact Or.inr ⟨o, ho, rfl⟩

/-- Claim C2 (counterexample): calling multiline then ignoreCase makes
build hand the engine the flag string in insertion order, which differs
from the canonical rendering of the same flag set produced by the engine's
getter. -/
theorem build_flag_string_not_canonical_cex :
    (build (fun _ => none) (ignoreCase (multiline match_))).2.2 = "gmi" ∧
    jsFlagsGetter (ignoreCase (multiline match_)).flags = "gim" ∧
    ("gmi" : String) ≠ "gim" := by
  refine ⟨by decide, by decide, by decide⟩

/-- Claim C2 (amended): whatever the order of the flag method calls, the
built expression's textual representation renders the active flags through
the engine's getter in the fixed canonical order: global first, then
case-insensitive, multiline, dotAll, unicode — a rendering depending only
on which flags are present, not on the call order. -/
theorem flags_canonical_via_engine_getter (ops : List FlagOp) :
    jsFlagsGetter ((applyFlagOps ops match_).flags)
      = String.mk ('g' ::
          ((if FlagOp.iFlag ∈ ops then ['i'] else []) ++
           (if FlagOp.mFlag ∈ ops then ['m'] else []) ++
           (if FlagOp.sFlag ∈ ops then ['s'] else []) ++
           (if FlagOp.uFlag ∈ ops then ['u'] else []))) := by
  have hmem : ∀ c : Char, c ∈ (applyFlagOps ops match_).flags
      ↔ (c = 'g') ∨
        ((c = 'i' ∧ FlagOp.iFlag ∈ ops) ∨ (c = 'm' ∧ FlagOp.mFlag ∈ ops) ∨
         (c = 's' ∧ FlagOp.sFlag ∈ ops) ∨ (c = 'u' ∧ FlagOp.uFlag ∈ ops)) := by
    intro c
    rw [mem_flags_applyFlagOps]
    show c ∈ ['g'] ∨ _ ↔ _
    simp only [List.mem_singleton]
    constructor
    · rintro (rfl | ⟨op, hop, rfl⟩)
      · exact Or.inl rfl
      · cases op
        · exact Or.inr (Or.inl ⟨rfl, hop⟩)
        · exact Or.inr (Or.inr (Or.inl ⟨rfl, hop⟩))
        · exact Or.inr (Or.inr (Or.inr (Or.inl ⟨rfl, hop⟩)))
        · exact Or.inr (Or.inr (Or.inr (Or.inr ⟨rfl, hop⟩)))
    · rintro (rfl | (⟨rfl, h⟩ | ⟨rfl, h⟩ | ⟨rfl, h⟩ | ⟨rfl, h⟩))
      · exact Or.inl rfl
      · exact Or.inr ⟨.iFlag, h, rfl⟩
      · exact Or.inr ⟨.mFlag, h, rfl⟩
      · exact Or.inr ⟨.sFlag, h, rfl⟩
      · exact Or.inr ⟨.uFlag, h, rfl⟩
  rw [jsFlagsGetter]
  congr 1
  by_cases hI : FlagOp.iFlag ∈ ops <;> by_cases hM : FlagOp.mFlag ∈ ops <;>
    by_cases hS : FlagOp.sFlag ∈ ops <;> by_cases hU : FlagOp.uFlag ∈ ops <;>
    simp [List.filter_cons, List.filter_nil, hmem, hI, hM, hS, hU]

lemma flags_runTimes (b : Builder) (q : ℚ) : (runTimes b q).flags = b.flags := by
  rw [runTimes]; split <;> rfl

lemma flags_exactly (b : Builder) (q : ℚ) : (exactly b q).flags = b.flags := by
  rw [exactly]; split <;> rfl

lemma flags_atLeast (b : Builder) (q : ℚ) : (atLeast b q).flags = b.flags := by
  rw [atLeast]; split <;> rfl

lemma flags_between (b : Builder) (q r : ℚ) : (between b q r).flags = b.flags := by
  rw [between]; split <;> rfl

lemma flags_backreference (b : Builder) (q : ℚ) :
    (backreference b q).flags = b.flags := by
  rw [backreference]; split <;> rfl

lemma flags_namedBackreference (b : Builder) (name : String) :
    (namedBackreference b name).flags = b.flags := by
  rw [namedBackreference]; split <;> rfl

lemma flags_orElse (b : Builder) (alt : Option String) :
    (orElse b alt).flags = b.flags := by
  cases alt <;> rfl

lemma flags_applyOp_cases (op : Op) (b : Builder) :
    (applyOp b op).flags = b.flags ∨
      ∃ c ∈ ['i', 'm', 's', 'u'], (applyOp b op).flags = setAdd b.flags c := by
  cases op <;>
    first
    | exact Or.inr ⟨'i', by simp, rfl⟩
    | exact Or.inr ⟨'m', by simp, rfl⟩
    | exact Or.inr ⟨'s', by simp, rfl⟩
    | exact Or.inr ⟨'u', by simp, rfl⟩
    | exact Or.inl rfl
    | exact Or.inl (flags_runTimes b _)
    | exact Or.inl (flags_exactly b _)
    | exact Or.inl (flags_atLeast b _)
    | exact Or.inl (flags_between b _ _)
    | exact Or.inl (flags_backreference b _)
    | exact Or.inl (flags_namedBackreference b _)
    | exact Or.inl (flags_orElse b _)

lemma g_and_nodup_applyOp (op : Op) (b : Builder)
    (h : 'g' ∈ b.flags ∧ b.flags.Nodup) :
    'g' ∈ (applyOp b op).flags ∧ (applyOp b op).flags.Nodup := by
  rcases flags_applyOp_cases op b with hf | ⟨c, -, hf⟩ <;> rw [hf]
  · exact h
  · exact ⟨mem_setAdd.mpr (Or.inl h.1), nodup_setAdd h.2⟩

/-- Claim C9: every builder starts with exactly the global flag; after any
sequence of public mutating operations the global flag is still present
and the flag set holds no duplicates (so repeated flag-method calls add
each flag at most once); and build never changes the flag set. -/
theorem global_flag_invariant_nodup :
    match_.flags = ['g'] ∧
    (∀ ops : List Op, 'g' ∈ (applyOps ops match_).flags ∧
      (applyOps ops match_).flags.Nodup) ∧
    (∀ (compile : String → Option String) (b : Builder),
      (build compile b).1.flags = b.flags) := by
  refine ⟨rfl, ?_, ?_⟩
  · have key : ∀ (ops : List Op) (b : Builder), 'g' ∈ b.flags ∧ b.flags.Nodup →
        'g' ∈ (applyOps ops b).flags ∧ (applyOps ops b).flags.Nodup := by
      intro ops
      induction ops with
      | nil => intro b h; exact h
      | cons op t ih => intro b h; exact ih _ (g_and_nodup_applyOp op b h)
    intro ops
    exact key ops match_ ⟨by simp [match_], by simp [match_]⟩
  · intro compile b
    unfold build
    cases compile b.pattern <;> rfl

end IrregularExpression
